import Mathlib

/-!
Verification of the repayment-schedule engine
(`src/modules/repayment-schedule/repayment-schedule.service.ts`).

The amortization calculator, the payment allocator inside `recordPayment`,
the summary recomputation and the early-repayment settlement are embedded
as executable Lean functions, and the spec's claims about them are settled
as theorems below the definitions.

Modelling conventions:
* JavaScript numbers are modelled as exact rationals, extended with the
  IEEE special values `NaN`, `Infinity` and `-Infinity` (`JNum`), which the
  calculator can produce through `0 / 0` when the monthly rate is zero.
  Binary floating-point rounding error is not modelled; every claim here is
  about the algorithm's arithmetic, not about bit-level float behaviour.
* `Number.prototype.toFixed(2)` followed by `parseFloat` is modelled by
  `round2Q` (round to a multiple of 1/100, ties toward +infinity, which is
  what toFixed's "pick the larger n" tie rule does).
* Calendar due dates are abstracted to a natural-number month counter
  (`startDate + i`): `getNextPaymentDate` advances the date by one period
  per installment (identically for the first and later installments), and
  no claim concerns calendar arithmetic.
* Persisted installments (mongoose-validated finite numbers) are modelled
  by `Installment` with rational fields; the calculator's in-flight values,
  where NaN can arise, use `JNum`.
* The repository `update` (`$set` of the given fields, `$inc` version by 1)
  and the published event payloads are folded into `recordPayment` /
  `processEarlyRepayment`, which return the updated schedule (and event)
  or the thrown error, as an `Except`.
-/

namespace LoanRepayment

/-- A JavaScript number: an exact rational or one of the IEEE special
values NaN, Infinity, -Infinity that the service's arithmetic can hit. -/
inductive JNum where
  | nan : JNum
  | inf : JNum
  | ninf : JNum
  | num : ℚ → JNum
  deriving DecidableEq

/-- JavaScript `+` on numbers. -/
def JNum.add : JNum → JNum → JNum
  | .nan, _ => .nan
  | _, .nan => .nan
  | .num a, .num b => .num (a + b)
  | .inf, .ninf => .nan
  | .ninf, .inf => .nan
  | .inf, _ => .inf
  | _, .inf => .inf
  | .ninf, _ => .ninf
  | _, .ninf => .ninf

/-- JavaScript `-` on numbers. -/
def JNum.sub : JNum → JNum → JNum
  | .nan, _ => .nan
  | _, .nan => .nan
  | .num a, .num b => .num (a - b)
  | .inf, .inf => .nan
  | .ninf, .ninf => .nan
  | .inf, _ => .inf
  | .ninf, _ => .ninf
  | _, .inf => .ninf
  | _, .ninf => .inf

/-- JavaScript `*` on numbers. -/
def JNum.mul : JNum → JNum → JNum
  | .nan, _ => .nan
  | _, .nan => .nan
  | .num a, .num b => .num (a * b)
  | .inf, .inf => .inf
  | .inf, .ninf => .ninf
  | .ninf, .inf => .ninf
  | .ninf, .ninf => .inf
  | .inf, .num b => if b = 0 then .nan else if 0 < b then .inf else .ninf
  | .num a, .inf => if a = 0 then .nan else if 0 < a then .inf else .ninf
  | .ninf, .num b => if b = 0 then .nan else if 0 < b then .ninf else .inf
  | .num a, .ninf => if a = 0 then .nan else if 0 < a then .ninf else .inf

/-- JavaScript `/` on numbers. A zero rational denominator models division
by JavaScript's positive zero: `0 / 0 = NaN`, `±x / 0 = ±Infinity`. -/
def JNum.div : JNum → JNum → JNum
  | .nan, _ => .nan
  | _, .nan => .nan
  | .num a, .num b =>
      if b = 0 then (if a = 0 then .nan else if 0 < a then .inf else .ninf)
      else .num (a / b)
  | .num _, .inf => .num 0
  | .num _, .ninf => .num 0
  | .inf, .num b => if 0 ≤ b then .inf else .ninf
  | .ninf, .num b => if 0 ≤ b then .ninf else .inf
  | .inf, _ => .nan
  | .ninf, _ => .nan

/-- JavaScript `Math.pow` with a natural exponent (the service only raises
`1 + monthlyRate` to `termMonths`). `Math.pow(x, 0) = 1` for every x. -/
def JNum.pow : JNum → ℕ → JNum
  | .num a, k => .num (a ^ k)
  | .nan, k => if k = 0 then .num 1 else .nan
  | .inf, k => if k = 0 then .num 1 else .inf
  | .ninf, k => if k = 0 then .num 1 else if k % 2 = 0 then .inf else .ninf

/-- `parseFloat(q.toFixed(2))` on a finite value: round to a multiple of
1/100, ties toward +infinity (toFixed picks the larger candidate). -/
def round2Q (q : ℚ) : ℚ := (⌊q * 100 + 1 / 2⌋ : ℚ) / 100

/-- `parseFloat(x.toFixed(2))`: NaN and the infinities round-trip through
their string forms unchanged. -/
def JNum.round2 : JNum → JNum
  | .num a => .num (round2Q a)
  | x => x

/-- The installment `status` union type
`'pending' | 'paid' | 'overdue' | 'partially_paid'`. -/
inductive InstStatus where
  | pending
  | paid
  | overdue
  | partiallyPaid
  deriving DecidableEq

/-- An `IScheduleInstallment` as `calculateInstallments` builds it, with
in-flight JavaScript-number fields (NaN can arise at a zero monthly rate).
`dueDate` is the abstract month counter. -/
structure JInstallment where
  installmentNumber : ℕ
  dueDate : ℕ
  principalAmount : JNum
  interestAmount : JNum
  totalAmount : JNum
  paidAmount : JNum
  outstandingAmount : JNum
  status : InstStatus
  deriving DecidableEq

/-- The loop `for (let i = 1; i <= termMonths; i++)` of
`calculateInstallments`. `fuel` counts the iterations still to run
(`termMonths - i + 1`); the final installment keeps the raw
`remainingPrincipal` as its principal portion, every other monetary field
goes through `toFixed(2)`. -/
def calcAux (monthlyPayment monthlyRate : JNum) (termMonths startDate : ℕ) :
    JNum → ℕ → ℕ → List JInstallment
  | _, _, 0 => []
  | remainingPrincipal, i, fuel + 1 =>
    let interestAmount := remainingPrincipal.mul monthlyRate
    let principalAmount := monthlyPayment.sub interestAmount
    if i = termMonths then
      let totalAmount := remainingPrincipal.add interestAmount
      [{ installmentNumber := i
         dueDate := startDate + i
         principalAmount := remainingPrincipal
         interestAmount := interestAmount.round2
         totalAmount := totalAmount.round2
         paidAmount := .num 0
         outstandingAmount := totalAmount.round2
         status := .pending }]
    else
      { installmentNumber := i
        dueDate := startDate + i
        principalAmount := principalAmount.round2
        interestAmount := interestAmount.round2
        totalAmount := monthlyPayment.round2
        paidAmount := .num 0
        outstandingAmount := monthlyPayment.round2
        status := .pending } ::
        calcAux monthlyPayment monthlyRate termMonths startDate
          (remainingPrincipal.sub principalAmount) (i + 1) fuel

/-- `calculateInstallments(principal, annualRate, termMonths, frequency,
startDate)`. `monthlyRate = annualRate / 100 / 12` and the fixed payment is
`principal * r * (1+r)^n / ((1+r)^n - 1)`; at `annualRate = 0` that is the
JavaScript division `0 / 0 = NaN`. The function performs no input
validation. -/
def calculateInstallments (principal annualRate : ℚ) (termMonths startDate : ℕ) :
    List JInstallment :=
  let monthlyRate : ℚ := annualRate / 100 / 12
  let monthlyPayment : JNum :=
    (JNum.num (principal * monthlyRate * (1 + monthlyRate) ^ termMonths)).div
      (JNum.num ((1 + monthlyRate) ^ termMonths - 1))
  calcAux monthlyPayment (.num monthlyRate) termMonths startDate (.num principal) 1 termMonths

/-- `installments.reduce((sum, inst) => sum + inst.principalAmount, 0)` in
JavaScript-number arithmetic, so a NaN field poisons the sum. -/
def sumPrincipal (installments : List JInstallment) : JNum :=
  installments.foldl (fun sum inst => sum.add inst.principalAmount) (.num 0)

/-- A persisted `IScheduleInstallment`: the mongoose schema stores finite
numbers (`min: 0` validators), so the fields are plain rationals. -/
structure Installment where
  installmentNumber : ℕ
  dueDate : ℕ
  principalAmount : ℚ
  interestAmount : ℚ
  totalAmount : ℚ
  paidAmount : ℚ
  outstandingAmount : ℚ
  status : InstStatus
  paidDate : Option ℕ
  paymentReference : Option String
  deriving DecidableEq

/-- What the allocation loop of `recordPayment` leaves behind: the updated
installment list, the unallocated `remainingPayment`, and
`installmentsPaid`, the count of installments settled this call. -/
structure AllocResult where
  installments : List Installment
  remainingPayment : ℚ
  installmentsPaid : ℕ
  deriving DecidableEq

/-- The allocation loop of `recordPayment` (`for (let i = 0; ...)`):
break when `remainingPayment <= 0`, skip installments already `paid`;
if `remainingPayment >= outstandingAmount` settle the installment in full
(`paidAmount = totalAmount`, `outstandingAmount = 0`, `status = paid`,
stamp `paidDate`/`paymentReference`), otherwise partially pay it and set
`remainingPayment = 0`, after which the loop's break leaves the rest of the
list untouched. -/
def allocate (ref : String) (now : ℕ) : ℚ → List Installment → AllocResult
  | remainingPayment, [] => ⟨[], remainingPayment, 0⟩
  | remainingPayment, installment :: rest =>
    if remainingPayment ≤ 0 then ⟨installment :: rest, remainingPayment, 0⟩
    else if installment.status = .paid then
      let r := allocate ref now remainingPayment rest
      ⟨installment :: r.installments, r.remainingPayment, r.installmentsPaid⟩
    else if installment.outstandingAmount ≤ remainingPayment then
      let r := allocate ref now (remainingPayment - installment.outstandingAmount) rest
      ⟨{ installment with
          paidAmount := installment.totalAmount
          outstandingAmount := 0
          status := .paid
          paidDate := some now
          paymentReference := some ref } :: r.installments,
        r.remainingPayment, r.installmentsPaid + 1⟩
    else
      ⟨{ installment with
          paidAmount := installment.paidAmount + remainingPayment
          outstandingAmount := installment.outstandingAmount - remainingPayment
          status := .partiallyPaid } :: rest, 0, 0⟩

/-- The schedule `summary` sub-document. -/
structure Summary where
  totalPrincipal : ℚ
  totalInterest : ℚ
  totalAmount : ℚ
  paidAmount : ℚ
  outstandingAmount : ℚ
  numberOfInstallments : ℕ
  completedInstallments : ℕ
  overdueInstallments : ℕ
  deriving DecidableEq

/-- `recalculateSummary`: the `reduce`-sums over the installment list
(`paidAmount` and `outstandingAmount` additionally through `toFixed(2)`),
`completedInstallments = count(status == paid)` and the overdue count of
non-settled installments whose due date is in the past. -/
def recalculateSummary (now : ℕ) (installments : List Installment) : Summary :=
  { totalPrincipal := (installments.map Installment.principalAmount).sum
    totalInterest := (installments.map Installment.interestAmount).sum
    totalAmount := (installments.map Installment.totalAmount).sum
    paidAmount := round2Q (installments.map Installment.paidAmount).sum
    outstandingAmount := round2Q (installments.map Installment.outstandingAmount).sum
    numberOfInstallments := installments.length
    completedInstallments := installments.countP (fun i => decide (i.status = .paid))
    overdueInstallments := installments.countP
      (fun i => decide ((i.status = .pending ∨ i.status = .partiallyPaid) ∧ i.dueDate < now)) }

/-- The schedule `status` enum. -/
inductive ScheduleStatus where
  | active
  | completed
  | defaulted
  | cancelled
  deriving DecidableEq

/-- The `earlyRepayment` sub-document. -/
structure EarlyRepayment where
  isEarlyRepayment : Bool
  earlyRepaymentDate : Option ℕ
  earlyRepaymentAmount : Option ℚ
  penaltyAmount : Option ℚ
  deriving DecidableEq

/-- The persisted `IRepaymentSchedule` aggregate (the fields the claims
concern; ids and loanDetails are omitted). `version` is the
optimistic-concurrency counter the repository's `$inc` bumps on every
update. -/
structure Schedule where
  installments : List Installment
  summary : Summary
  status : ScheduleStatus
  lastPaymentDate : Option ℕ
  nextPaymentDate : Option ℕ
  earlyRepayment : EarlyRepayment
  version : ℕ
  deriving DecidableEq

/-- An `AppError` as thrown by the service: HTTP status, machine `code`
(the class default, e.g. `UNPROCESSABLE_ENTITY`) and the `details` value
the service passes as the constructor's second argument
(e.g. `INSUFFICIENT_AMOUNT`). The human-readable message is omitted. -/
structure AppErr where
  statusCode : ℕ
  code : String
  details : Option String
  deriving DecidableEq

/-- `new UnprocessableEntityError(message, details)` with the class's
default `code = 'UNPROCESSABLE_ENTITY'`. -/
def unprocessableEntityError (details : String) : AppErr :=
  ⟨422, "UNPROCESSABLE_ENTITY", some details⟩

/-- The payload of the `repayment_schedule.payment_recorded` event. -/
structure PaymentEvent where
  paymentAmount : ℚ
  paymentReference : String
  installmentsPaid : ℕ
  remainingBalance : ℚ
  deriving DecidableEq

/-- `recordPayment`: reject inactive schedules, run the allocation loop
over a copy of the installments, recompute the summary, pick the next
pending/partially-paid installment's due date, flip to `completed` when
`newSummary.completedInstallments` equals the stored
`summary.numberOfInstallments`, and persist with `lastPaymentDate = now`
and the version incremented. Returns the updated schedule and the
`payment_recorded` event payload. -/
def recordPayment (schedule : Schedule) (paymentAmount : ℚ) (ref : String)
    (now : ℕ) : Except AppErr (Schedule × PaymentEvent) :=
  if schedule.status ≠ ScheduleStatus.active then
    .error (unprocessableEntityError "INACTIVE_SCHEDULE")
  else
    let result := allocate ref now paymentAmount schedule.installments
    let newSummary := recalculateSummary now result.installments
    let nextPendingInstallment := result.installments.find?
      (fun i => decide (i.status = .pending ∨ i.status = .partiallyPaid))
    .ok ({ schedule with
            installments := result.installments
            summary := newSummary
            lastPaymentDate := some now
            nextPaymentDate := nextPendingInstallment.map Installment.dueDate
            status :=
              if newSummary.completedInstallments = schedule.summary.numberOfInstallments
              then ScheduleStatus.completed else ScheduleStatus.active
            version := schedule.version + 1 },
          { paymentAmount := paymentAmount
            paymentReference := ref
            installmentsPaid := result.installmentsPaid
            remainingBalance := newSummary.outstandingAmount })

/-- `processEarlyRepayment`: `penaltyAmount = outstanding * 0.02`,
`totalRequired = outstanding + penalty`; below that, throw
`UnprocessableEntityError(..., 'INSUFFICIENT_AMOUNT')` without touching the
schedule. On success set `status = completed`, stamp `earlyRepayment`,
force the summary to fully-paid, and persist (version incremented). The
installment list itself is not modified. -/
def processEarlyRepayment (schedule : Schedule) (paymentAmount : ℚ)
    (now : ℕ) : Except AppErr Schedule :=
  let outstandingAmount := schedule.summary.outstandingAmount
  let penaltyRate : ℚ := 2 / 100
  let penaltyAmount := outstandingAmount * penaltyRate
  let totalRequired := outstandingAmount + penaltyAmount
  if paymentAmount < totalRequired then
    .error (unprocessableEntityError "INSUFFICIENT_AMOUNT")
  else
    .ok { schedule with
          status := ScheduleStatus.completed
          lastPaymentDate := some now
          earlyRepayment :=
            { isEarlyRepayment := true
              earlyRepaymentDate := some now
              earlyRepaymentAmount := some paymentAmount
              penaltyAmount := some penaltyAmount }
          summary := { schedule.summary with
              paidAmount := schedule.summary.totalAmount
              outstandingAmount := 0
              completedInstallments := schedule.summary.numberOfInstallments }
          version := schedule.version + 1 }

/-- Sum of the persisted installments' `paidAmount` fields
(`reduce((sum, inst) => sum + inst.paidAmount, 0)`). -/
def sumPaid (l : List Installment) : ℚ := (l.map Installment.paidAmount).sum

/-- Sum of the persisted installments' `outstandingAmount` fields. -/
def sumOut (l : List Installment) : ℚ := (l.map Installment.outstandingAmount).sum

/-! Concrete fixtures used by the counterexamples and witnesses below. -/

/-- A single pending installment of 100, as the calculator creates it for
principal 100 at rate 0 over one month. -/
def c5CexInst : Installment := ⟨1, 1, 100, 0, 100, 0, 100, .pending, none, none⟩

/-- A one-installment active schedule with outstanding balance 100. -/
def c1Sched : Schedule :=
  { installments := [⟨1, 1, 100, 0, 100, 0, 100, .pending, none, none⟩]
    summary := ⟨100, 0, 100, 0, 100, 1, 0, 0⟩
    status := .active
    lastPaymentDate := none
    nextPaymentDate := some 1
    earlyRepayment := ⟨false, none, none, none⟩
    version := 0 }

/-- The schedule `c1Sched` after a sufficient early repayment of 102. -/
def c1After : Schedule :=
  { c1Sched with
    status := .completed
    lastPaymentDate := some 5
    earlyRepayment := ⟨true, some 5, some 102, some 2⟩
    summary := ⟨100, 0, 100, 100, 0, 1, 1, 0⟩
    version := 1 }

/-- Two pending installments of 50 and 100. -/
def c3L : List Installment :=
  [⟨1, 1, 50, 0, 50, 0, 50, .pending, none, none⟩,
   ⟨2, 2, 100, 0, 100, 0, 100, .pending, none, none⟩]

/-- The first installment of the 2-month, 12% schedule on principal
1000. -/
def c8First : JInstallment :=
  ⟨1, 1, .num (49751 / 100), .num 10, .num (50751 / 100), .num 0,
    .num (50751 / 100), .pending⟩

/-- A one-installment active schedule at version 3. -/
def c10Sched : Schedule :=
  { installments := [c5CexInst]
    summary := ⟨100, 0, 100, 0, 100, 1, 0, 0⟩
    status := .active
    lastPaymentDate := none
    nextPaymentDate := some 1
    earlyRepayment := ⟨false, none, none, none⟩
    version := 3 }

@[simp] theorem JNum.add_num (a b : ℚ) : (JNum.num a).add (JNum.num b) = JNum.num (a + b) := rfl

@[simp] theorem JNum.sub_num (a b : ℚ) : (JNum.num a).sub (JNum.num b) = JNum.num (a - b) := rfl

@[simp] theorem JNum.mul_num (a b : ℚ) : (JNum.num a).mul (JNum.num b) = JNum.num (a * b) := rfl

@[simp] theorem JNum.round2_num (a : ℚ) : (JNum.num a).round2 = JNum.num (round2Q a) := rfl

theorem JNum.div_num (a : ℚ) {b : ℚ} (hb : b ≠ 0) :
    (JNum.num a).div (JNum.num b) = JNum.num (a / b) := by
  simp [JNum.div, hb]

theorem JNum.zero_add_j (x : JNum) : (JNum.num 0).add x = x := by
  cases x <;> simp [JNum.add]

theorem abs_round2Q_sub (q : ℚ) : |round2Q q - q| ≤ 1 / 200 := by
  have h1 : (⌊q * 100 + 1 / 2⌋ : ℚ) ≤ q * 100 + 1 / 2 := Int.floor_le _
  have h2 : q * 100 + 1 / 2 < (⌊q * 100 + 1 / 2⌋ : ℚ) + 1 := Int.lt_floor_add_one _
  rw [abs_le]
  unfold round2Q
  constructor <;> linarith

theorem round2Q_idem (q : ℚ) : round2Q (round2Q q) = round2Q q := by
  unfold round2Q
  rw [div_mul_cancel₀ _ (by norm_num : (100:ℚ) ≠ 0)]
  norm_num

theorem round2Q_zero : round2Q 0 = 0 := by
  unfold round2Q
  norm_num

theorem JNum.round2_round2 (x : JNum) : x.round2.round2 = x.round2 := by
  cases x <;> simp [JNum.round2, round2Q_idem]

/-- Every installment the calculator loop emits has `paidAmount = 0` and
`outstandingAmount` equal to `totalAmount`. -/
theorem calcAux_mem_paid_out (M r : JNum) (n sd : ℕ) :
    ∀ fuel rem i, ∀ inst ∈ calcAux M r n sd rem i fuel,
      inst.paidAmount = JNum.num 0 ∧ inst.outstandingAmount = inst.totalAmount := by
  intro fuel
  induction fuel with
  | zero => intro rem i inst h; simp [calcAux] at h
  | succ f ih =>
    intro rem i inst h
    rw [calcAux] at h
    by_cases hi : i = n
    · simp only [if_pos hi, List.mem_singleton] at h
      subst h
      exact ⟨rfl, rfl⟩
    · simp only [if_neg hi, List.mem_cons] at h
      rcases h with h | h
      · subst h; exact ⟨rfl, rfl⟩
      · exact ih _ _ inst h

/-- The calculator loop returns exactly `fuel` installments under the loop
invariant `i + fuel = termMonths + 1`. -/
theorem calcAux_length (M r : JNum) (n sd : ℕ) :
    ∀ fuel rem i, i + fuel = n + 1 → (calcAux M r n sd rem i fuel).length = fuel := by
  intro fuel
  induction fuel with
  | zero => intro rem i _; simp [calcAux]
  | succ f ih =>
    intro rem i hinv
    rw [calcAux]
    by_cases hi : i = n
    · have hf : f = 0 := by omega
      simp [if_pos hi, hf]
    · simp [if_neg hi, ih _ (i + 1) (by omega)]

/-- Every monetary field the calculator rounds is a fixed point of
rounding; the final installment's principal portion is exempted because the
source stores raw `remainingPrincipal` there. -/
theorem calcAux_mem_rounded (M r : JNum) (n sd : ℕ) :
    ∀ fuel rem i, ∀ inst ∈ calcAux M r n sd rem i fuel,
      inst.interestAmount.round2 = inst.interestAmount ∧
      inst.totalAmount.round2 = inst.totalAmount ∧
      inst.outstandingAmount.round2 = inst.outstandingAmount ∧
      inst.paidAmount.round2 = inst.paidAmount ∧
      (inst.installmentNumber ≠ n → inst.principalAmount.round2 = inst.principalAmount) := by
  intro fuel
  induction fuel with
  | zero => intro rem i inst h; simp [calcAux] at h
  | succ f ih =>
    intro rem i inst h
    rw [calcAux] at h
    by_cases hi : i = n
    · simp only [if_pos hi, List.mem_singleton] at h
      subst h
      refine ⟨JNum.round2_round2 _, JNum.round2_round2 _, JNum.round2_round2 _, ?_, ?_⟩
      · simp [round2Q_zero]
      · intro hne; exact absurd hi hne
    · simp only [if_neg hi, List.mem_cons] at h
      rcases h with h | h
      · subst h
        exact ⟨JNum.round2_round2 _, JNum.round2_round2 _, JNum.round2_round2 _,
          by simp [round2Q_zero], fun _ => JNum.round2_round2 _⟩
      · exact ih _ _ inst h

/-- Summing the principal portions of the loop's output, starting from the
accumulator `c`: the sum is a rational within `(fuel - 1)/200` of `c`
plus the remaining principal the loop started from. -/
theorem calcAux_foldl_principal (m r : ℚ) (n sd : ℕ) :
    ∀ fuel i q c, i + fuel = n + 1 → 1 ≤ fuel →
    ∃ s : ℚ,
      (calcAux (.num m) (.num r) n sd (.num q) i fuel).foldl
        (fun (sum : JNum) (inst : JInstallment) => sum.add inst.principalAmount)
        (.num c) = .num s ∧
      |s - (c + q)| ≤ ((fuel : ℚ) - 1) / 200 := by
  intro fuel
  induction fuel with
  | zero => intro i q c _ h; omega
  | succ f ih =>
    intro i q c hinv _
    rw [calcAux]
    by_cases hi : i = n
    · refine ⟨c + q, ?_, ?_⟩
      · simp [if_pos hi]
      · simp only [sub_self, abs_zero]
        have : (0:ℚ) ≤ (f : ℚ) := by positivity
        push_cast
        linarith
    · have hf : 1 ≤ f := by omega
      obtain ⟨s, hs, hb⟩ :=
        ih (i + 1) (q - (m - q * r)) (c + round2Q (m - q * r)) (by omega) hf
      refine ⟨s, ?_, ?_⟩
      · simp only [if_neg hi, List.foldl_cons, JNum.mul_num, JNum.sub_num,
          JNum.round2_num, JNum.add_num]
        exact hs
      · have hr2 := abs_round2Q_sub (m - q * r)
        have heq : s - (c + q) =
            (s - (c + round2Q (m - q * r) + (q - (m - q * r)))) +
              (round2Q (m - q * r) - (m - q * r)) := by ring
        rw [heq]
        have := abs_add (s - (c + round2Q (m - q * r) + (q - (m - q * r))))
          (round2Q (m - q * r) - (m - q * r))
        push_cast at hb ⊢
        linarith

theorem allocate_nonpos (ref : String) (now : ℕ) (l : List Installment) {r : ℚ}
    (hr : r ≤ 0) : allocate ref now r l = ⟨l, r, 0⟩ := by
  cases l with
  | nil => rfl
  | cons i t => rw [allocate]; simp [if_pos hr]

theorem allocate_length (ref : String) (now : ℕ) :
    ∀ (l : List Installment) (r : ℚ),
      (allocate ref now r l).installments.length = l.length := by
  intro l
  induction l with
  | nil => intro r; rfl
  | cons i t ih =>
    intro r
    rw [allocate]
    by_cases h0 : r ≤ 0
    · simp [if_pos h0]
    · by_cases h1 : i.status = InstStatus.paid
      · simp [if_neg h0, if_pos h1, ih]
      · by_cases h2 : i.outstandingAmount ≤ r
        · simp [if_neg h0, if_neg h1, if_pos h2, ih]
        · simp [if_neg h0, if_neg h1, if_neg h2]

theorem sumPaid_cons (i : Installment) (t : List Installment) :
    sumPaid (i :: t) = i.paidAmount + sumPaid t := by
  simp [sumPaid]

theorem sumOut_cons (i : Installment) (t : List Installment) :
    sumOut (i :: t) = i.outstandingAmount + sumOut t := by
  simp [sumOut]

/-- How the allocation loop may change the installment at index `k`:
not at all; or, when it was not already `paid`, to the fully-settled
record, or to a partial payment of some positive amount `x` short of the
outstanding balance. Installments already `paid` are never modified. -/
theorem allocate_pointwise (ref : String) (now : ℕ) :
    ∀ (l : List Installment) (r : ℚ) (k : ℕ) (a b : Installment),
      l[k]? = some a → (allocate ref now r l).installments[k]? = some b →
      (a.status = InstStatus.paid → b = a) ∧
      (b ≠ a →
        b = { a with
              paidAmount := a.totalAmount
              outstandingAmount := 0
              status := InstStatus.paid
              paidDate := some now
              paymentReference := some ref } ∨
        ∃ x, 0 < x ∧ x < a.outstandingAmount ∧
          b = { a with
                paidAmount := a.paidAmount + x
                outstandingAmount := a.outstandingAmount - x
                status := InstStatus.partiallyPaid }) := by
  intro l
  induction l with
  | nil => intro r k a b ha _; simp at ha
  | cons i t ih =>
    intro r k a b ha hb
    rw [allocate] at hb
    by_cases h0 : r ≤ 0
    · rw [if_pos h0] at hb
      have hba : b = a := by
        rw [ha] at hb
        exact (Option.some_inj.mp hb).symm
      exact ⟨fun _ => hba, fun hne => absurd hba hne⟩
    · rw [if_neg h0] at hb
      by_cases h1 : i.status = InstStatus.paid
      · rw [if_pos h1] at hb
        cases k with
        | zero =>
          simp only [List.getElem?_cons_zero, Option.some_inj] at ha hb
          have hba : b = a := by rw [← hb]; exact ha
          exact ⟨fun _ => hba, fun hne => absurd hba hne⟩
        | succ k =>
          simp only [List.getElem?_cons_succ] at ha hb
          exact ih r k a b ha hb
      · rw [if_neg h1] at hb
        by_cases h2 : i.outstandingAmount ≤ r
        · rw [if_pos h2] at hb
          cases k with
          | zero =>
            simp only [List.getElem?_cons_zero, Option.some_inj] at ha hb
            subst ha
            refine ⟨fun hpaid => absurd hpaid h1, fun _ => Or.inl ?_⟩
            rw [← hb]
          | succ k =>
            simp only [List.getElem?_cons_succ] at ha hb
            exact ih (r - i.outstandingAmount) k a b ha hb
        · rw [if_neg h2] at hb
          cases k with
          | zero =>
            simp only [List.getElem?_cons_zero, Option.some_inj] at ha hb
            subst ha
            refine ⟨fun hpaid => absurd hpaid h1, fun _ => Or.inr ⟨r, ?_, ?_, ?_⟩⟩
            · linarith
            · linarith
            · rw [← hb]
          | succ k =>
            simp only [List.getElem?_cons_succ, Option.some_inj] at ha hb
            have hba : b = a := (Option.some_inj.mp (ha.symm.trans hb)).symm
            exact ⟨fun _ => hba, fun hne => absurd hba hne⟩

/-- The hard stop: past an installment the loop left `partially_paid`,
every later index is untouched. -/
theorem allocate_partial_stop (ref : String) (now : ℕ) :
    ∀ (l : List Installment) (r : ℚ) (k : ℕ) (b : Installment),
      (allocate ref now r l).installments[k]? = some b →
      b.status = InstStatus.partiallyPaid →
      ∀ j, k < j → (allocate ref now r l).installments[j]? = l[j]? := by
  intro l
  induction l with
  | nil => intro r k b hb _ j _; simp [allocate] at hb ⊢
  | cons i t ih =>
    intro r k b hb hpart j hkj
    rw [allocate] at hb ⊢
    by_cases h0 : r ≤ 0
    · rw [if_pos h0]
    · rw [if_neg h0] at hb ⊢
      by_cases h1 : i.status = InstStatus.paid
      · rw [if_pos h1] at hb ⊢
        cases k with
        | zero =>
          simp only [List.getElem?_cons_zero, Option.some_inj] at hb
          rw [← hb] at hpart
          rw [h1] at hpart
          exact absurd hpart (by simp)
        | succ k =>
          simp only [List.getElem?_cons_succ] at hb
          cases j with
          | zero => omega
          | succ j =>
            simp only [List.getElem?_cons_succ]
            exact ih r k b hb hpart j (by omega)
      · rw [if_neg h1] at hb ⊢
        by_cases h2 : i.outstandingAmount ≤ r
        · rw [if_pos h2] at hb ⊢
          cases k with
          | zero =>
            simp only [List.getElem?_cons_zero, Option.some_inj] at hb
            rw [← hb] at hpart
            exact absurd hpart (by simp)
          | succ k =>
            simp only [List.getElem?_cons_succ] at hb
            cases j with
            | zero => omega
            | succ j =>
              simp only [List.getElem?_cons_succ]
              exact ih (r - i.outstandingAmount) k b hb hpart j (by omega)
        · rw [if_neg h2] at hb ⊢
          cases j with
          | zero => omega
          | succ j => simp only [List.getElem?_cons_succ]

/-- If some later index was modified, every earlier installment that was
not already `paid` has been settled to status `paid`. -/
theorem allocate_earlier_settled (ref : String) (now : ℕ) :
    ∀ (l : List Installment) (r : ℚ) (k j : ℕ) (a b : Installment), k < j →
      (allocate ref now r l).installments[j]? ≠ l[j]? →
      l[k]? = some a → (allocate ref now r l).installments[k]? = some b →
      a.status ≠ InstStatus.paid → b.status = InstStatus.paid := by
  intro l
  induction l with
  | nil => intro r k j a b _ _ ha _ _; simp at ha
  | cons i t ih =>
    intro r k j a b hkj hj ha hb hnp
    rw [allocate] at hj hb
    by_cases h0 : r ≤ 0
    · rw [if_pos h0] at hj
      exact absurd rfl hj
    · rw [if_neg h0] at hj hb
      by_cases h1 : i.status = InstStatus.paid
      · rw [if_pos h1] at hj hb
        cases k with
        | zero =>
          simp only [List.getElem?_cons_zero, Option.some_inj] at ha
          rw [ha] at h1
          exact absurd h1 hnp
        | succ k =>
          cases j with
          | zero => omega
          | succ j =>
            simp only [List.getElem?_cons_succ] at ha hb hj
            exact ih r k j a b (by omega) hj ha hb hnp
      · rw [if_neg h1] at hj hb
        by_cases h2 : i.outstandingAmount ≤ r
        · rw [if_pos h2] at hj hb
          cases k with
          | zero =>
            simp only [List.getElem?_cons_zero, Option.some_inj] at hb
            rw [← hb]
          | succ k =>
            cases j with
            | zero => omega
            | succ j =>
              simp only [List.getElem?_cons_succ] at ha hb hj
              exact ih (r - i.outstandingAmount) k j a b (by omega) hj ha hb hnp
        · rw [if_neg h2] at hj
          cases j with
          | zero => omega
          | succ j =>
            simp only [List.getElem?_cons_succ] at hj
            exact absurd rfl hj

/-- The allocation loop preserves `paidAmount + outstandingAmount =
totalAmount` on every installment. -/
theorem allocate_preserves_invariant (ref : String) (now : ℕ) :
    ∀ (l : List Installment) (r : ℚ),
      (∀ i ∈ l, i.paidAmount + i.outstandingAmount = i.totalAmount) →
      ∀ i ∈ (allocate ref now r l).installments,
        i.paidAmount + i.outstandingAmount = i.totalAmount := by
  intro l
  induction l with
  | nil => intro r _ i hi; simp [allocate] at hi
  | cons a t ih =>
    intro r hinv i hi
    rw [allocate] at hi
    by_cases h0 : r ≤ 0
    · rw [if_pos h0] at hi
      exact hinv i hi
    · rw [if_neg h0] at hi
      by_cases h1 : a.status = InstStatus.paid
      · rw [if_pos h1] at hi
        rcases List.mem_cons.mp hi with h | h
        · subst h; exact hinv _ (List.mem_cons_self _ _)
        · exact ih r (fun x hx => hinv x (List.mem_cons_of_mem _ hx)) i h
      · rw [if_neg h1] at hi
        by_cases h2 : a.outstandingAmount ≤ r
        · rw [if_pos h2] at hi
          rcases List.mem_cons.mp hi with h | h
          · subst h; simp
          · exact ih (r - a.outstandingAmount)
              (fun x hx => hinv x (List.mem_cons_of_mem _ hx)) i h
        · rw [if_neg h2] at hi
          rcases List.mem_cons.mp hi with h | h
          · subst h
            have := hinv _ (List.mem_cons_self _ _)
            simp only
            linarith
          · exact hinv i (List.mem_cons_of_mem _ h)

/-- Conservation: what the loop adds to the paid amounts is exactly the
payment minus the unallocated remainder. -/
theorem allocate_sumPaid (ref : String) (now : ℕ) :
    ∀ (l : List Installment) (r : ℚ),
      (∀ i ∈ l, i.paidAmount + i.outstandingAmount = i.totalAmount) →
      sumPaid (allocate ref now r l).installments
          + (allocate ref now r l).remainingPayment = sumPaid l + r := by
  intro l
  induction l with
  | nil => intro r _; simp [allocate, sumPaid]
  | cons a t ih =>
    intro r hinv
    rw [allocate]
    by_cases h0 : r ≤ 0
    · rw [if_pos h0]
    · rw [if_neg h0]
      by_cases h1 : a.status = InstStatus.paid
      · rw [if_pos h1]
        have := ih r (fun x hx => hinv x (List.mem_cons_of_mem _ hx))
        simp only [sumPaid_cons]
        linarith
      · rw [if_neg h1]
        by_cases h2 : a.outstandingAmount ≤ r
        · rw [if_pos h2]
          have hih := ih (r - a.outstandingAmount)
            (fun x hx => hinv x (List.mem_cons_of_mem _ hx))
          have hha := hinv a (List.mem_cons_self a t)
          simp only [sumPaid_cons]
          linarith
        · rw [if_neg h2]
          simp only [sumPaid_cons]
          ring

/-- A nonzero remainder is only left when the payment strictly exceeds the
total outstanding balance (paid installments carrying zero outstanding). -/
theorem allocate_remainder (ref : String) (now : ℕ) :
    ∀ (l : List Installment) (r : ℚ), 0 < r →
      (∀ i ∈ l, i.status = InstStatus.paid → i.outstandingAmount = 0) →
      (allocate ref now r l).remainingPayment ≠ 0 → sumOut l < r := by
  intro l
  induction l with
  | nil => intro r hr _ _; simpa [sumOut] using hr
  | cons a t ih =>
    intro r hr hpaid hrem
    rw [allocate] at hrem
    by_cases h0 : r ≤ 0
    · linarith
    · rw [if_neg h0] at hrem
      by_cases h1 : a.status = InstStatus.paid
      · rw [if_pos h1] at hrem
        have hz := hpaid a (List.mem_cons_self a t) h1
        have := ih r hr (fun x hx => hpaid x (List.mem_cons_of_mem _ hx)) hrem
        rw [sumOut_cons, hz]
        linarith
      · rw [if_neg h1] at hrem
        by_cases h2 : a.outstandingAmount ≤ r
        · rw [if_pos h2] at hrem
          by_cases h3 : r - a.outstandingAmount ≤ 0
          · rw [allocate_nonpos ref now t h3] at hrem
            have h4 : r - a.outstandingAmount = 0 := by linarith
            exact absurd h4 hrem
          · have := ih (r - a.outstandingAmount) (by linarith)
              (fun x hx => hpaid x (List.mem_cons_of_mem _ hx)) hrem
            rw [sumOut_cons]
            linarith
        · rw [if_neg h2] at hrem
          exact absurd rfl hrem

/-- C2: at a zero rate the fixed-payment formula divides 0 by 0, so the
generated installments carry NaN amounts instead of the even principal
split the spec prescribes (first installment's interest is the only
finite monetary value). -/
theorem c2_zero_rate_nan_bug :
    (calculateInstallments 1200 0 2 0).map JInstallment.principalAmount
        = [JNum.nan, JNum.nan] ∧
    (calculateInstallments 1200 0 2 0).map JInstallment.interestAmount
        = [JNum.num 0, JNum.nan] ∧
    (calculateInstallments 1200 0 2 0).map JInstallment.totalAmount
        = [JNum.nan, JNum.nan] := by
  refine ⟨?_, ?_, ?_⟩ <;>
    norm_num [calculateInstallments, calcAux, JNum.div, JNum.mul, JNum.sub,
      JNum.add, JNum.round2, round2Q_zero]

/-- C4 counterexample: at rate 0 (a valid input per the claim) the sum of
the principal portions is NaN, hence not a rational within the claimed
tolerance of the principal 1200. -/
theorem c4_completeness_cex :
    sumPrincipal (calculateInstallments 1200 0 2 0) = JNum.nan ∧
    ∀ s : ℚ, JNum.nan ≠ JNum.num s := by
  constructor
  · norm_num [sumPrincipal, calculateInstallments, calcAux, JNum.div,
      JNum.mul, JNum.sub, JNum.add, JNum.round2, round2Q_zero]
  · intro s h
    cases h

/-- C4 (amended to positive rates): the principal portions of the
generated installments sum to a rational within one cent per installment
of the input principal. -/
theorem c4_completeness_amended (p ra : ℚ) (n sd : ℕ)
    (_hp : 0 < p) (hra : 0 < ra) (hn : 1 ≤ n) :
    ∃ s : ℚ, sumPrincipal (calculateInstallments p ra n sd) = JNum.num s ∧
      |s - p| ≤ (n : ℚ) / 100 := by
  have hr0 : (0:ℚ) < ra / 100 / 12 := by positivity
  have hpow : (1:ℚ) < (1 + ra / 100 / 12) ^ n :=
    one_lt_pow₀ (by linarith) (by omega)
  have hden : (1 + ra / 100 / 12) ^ n - 1 ≠ 0 := ne_of_gt (by linarith)
  obtain ⟨s, hs, hb⟩ := calcAux_foldl_principal
    (p * (ra / 100 / 12) * (1 + ra / 100 / 12) ^ n / ((1 + ra / 100 / 12) ^ n - 1))
    (ra / 100 / 12) n sd n 1 p 0 (by omega) hn
  refine ⟨s, ?_, ?_⟩
  · show List.foldl (fun sum inst => sum.add inst.principalAmount) (JNum.num 0)
        (calcAux
          ((JNum.num (p * (ra / 100 / 12) * (1 + ra / 100 / 12) ^ n)).div
            (JNum.num ((1 + ra / 100 / 12) ^ n - 1)))
          (JNum.num (ra / 100 / 12)) n sd (JNum.num p) 1 n) = JNum.num s
    rw [JNum.div_num _ hden]
    exact hs
  · rw [zero_add] at hb
    have hn1 : (1:ℚ) ≤ (n : ℚ) := by exact_mod_cast hn
    linarith

/-- C4 witness at principal 1000, annual rate 12%, term 2. -/
theorem c4_completeness_witness :
    (0:ℚ) < 1000 ∧ (0:ℚ) < 12 ∧ 1 ≤ 2 ∧
    ∃ s : ℚ, sumPrincipal (calculateInstallments 1000 12 2 0) = JNum.num s ∧
      |s - 1000| ≤ (2 : ℚ) / 100 :=
  ⟨by norm_num, by norm_num, by norm_num,
    c4_completeness_amended 1000 12 2 0 (by norm_num) (by norm_num) (by norm_num)⟩

/-- C5 counterexample: with a negative payment the loop breaks immediately
and returns the payment as a nonzero remainder although the payment does
not exceed the outstanding balance of 100. -/
theorem c5_conservation_cex :
    (∀ i ∈ [c5CexInst], i.paidAmount + i.outstandingAmount = i.totalAmount) ∧
    (allocate "p" 0 (-5) [c5CexInst]).remainingPayment ≠ 0 ∧
    ¬ sumOut [c5CexInst] < -5 := by
  refine ⟨by norm_num [c5CexInst], ?_, by norm_num [sumOut, c5CexInst]⟩
  norm_num [allocate, c5CexInst]

/-- C5 (amended to positive payments, with settled installments carrying
zero outstanding): allocation conserves money, and a nonzero remainder
occurs exactly when the payment exceeds the total outstanding balance; the
remainder is returned, not an error. -/
theorem c5_conservation_amended (ref : String) (now : ℕ) (r : ℚ)
    (l : List Installment) (hr : 0 < r)
    (hinv : ∀ i ∈ l, i.paidAmount + i.outstandingAmount = i.totalAmount)
    (hpaid : ∀ i ∈ l, i.status = InstStatus.paid → i.outstandingAmount = 0) :
    sumPaid (allocate ref now r l).installments - sumPaid l
        = r - (allocate ref now r l).remainingPayment ∧
    ((allocate ref now r l).remainingPayment ≠ 0 → sumOut l < r) := by
  refine ⟨?_, allocate_remainder ref now l r hr hpaid⟩
  have := allocate_sumPaid ref now l r hinv
  linarith

/-- C5 witness: a 150 payment against a single 100 installment settles it
and leaves remainder 50. -/
theorem c5_conservation_witness :
    (0:ℚ) < 150 ∧
    (sumPaid (allocate "p" 0 150 [c5CexInst]).installments - sumPaid [c5CexInst]
        = 150 - (allocate "p" 0 150 [c5CexInst]).remainingPayment ∧
      ((allocate "p" 0 150 [c5CexInst]).remainingPayment ≠ 0 →
        sumOut [c5CexInst] < 150)) :=
  ⟨by norm_num,
    c5_conservation_amended "p" 0 150 [c5CexInst] (by norm_num)
      (by norm_num [c5CexInst]) (by decide)⟩

/-- C6: the invariant `paidAmount + outstandingAmount = totalAmount` holds
on every installment the calculator emits (with `paidAmount = 0` and
`outstandingAmount = totalAmount`), and is preserved by the allocation
loop of `recordPayment` in both the full-payment and partial-payment
branches. -/
theorem c6_installment_invariant :
    (∀ (p ra : ℚ) (n sd : ℕ), ∀ inst ∈ calculateInstallments p ra n sd,
      inst.paidAmount = JNum.num 0 ∧
      inst.outstandingAmount = inst.totalAmount ∧
      inst.paidAmount.add inst.outstandingAmount = inst.totalAmount) ∧
    (∀ (ref : String) (now : ℕ) (l : List Installment) (r : ℚ),
      (∀ i ∈ l, i.paidAmount + i.outstandingAmount = i.totalAmount) →
      ∀ i ∈ (allocate ref now r l).installments,
        i.paidAmount + i.outstandingAmount = i.totalAmount) := by
  constructor
  · intro p ra n sd inst hmem
    unfold calculateInstallments at hmem
    obtain ⟨h1, h2⟩ := calcAux_mem_paid_out _ _ n sd _ _ 1 inst hmem
    refine ⟨h1, h2, ?_⟩
    rw [h1, h2]
    exact JNum.zero_add_j _
  · exact fun ref now l r hinv => allocate_preserves_invariant ref now l r hinv

/-- C6 witness: the invariant on a concrete calculator output and after a
concrete allocation. -/
theorem c6_installment_invariant_witness :
    (∀ inst ∈ calculateInstallments 1000 12 2 0,
      inst.paidAmount.add inst.outstandingAmount = inst.totalAmount) ∧
    (∀ i ∈ (allocate "p" 0 150 [c5CexInst]).installments,
      i.paidAmount + i.outstandingAmount = i.totalAmount) :=
  ⟨fun inst hmem => (c6_installment_invariant.1 1000 12 2 0 inst hmem).2.2,
    c6_installment_invariant.2 "p" 0 [c5CexInst] 150 (by norm_num [c5CexInst])⟩

/-- C7: early repayment fails with the `INSUFFICIENT_AMOUNT`
unprocessable-entity error exactly when the payment is below
`outstanding + outstanding * 0.02`, so paying exactly the outstanding
balance of a schedule with positive balance fails (the error path returns
before any update is persisted). -/
theorem c7_early_repayment_threshold (s : Schedule) (amt : ℚ) (now : ℕ) :
    (processEarlyRepayment s amt now
        = .error (unprocessableEntityError "INSUFFICIENT_AMOUNT") ↔
      amt < s.summary.outstandingAmount + s.summary.outstandingAmount * (2 / 100)) ∧
    (0 < s.summary.outstandingAmount →
      processEarlyRepayment s s.summary.outstandingAmount now
        = .error (unprocessableEntityError "INSUFFICIENT_AMOUNT")) := by
  constructor
  · simp only [processEarlyRepayment]
    split_ifs with h
    · simpa using h
    · simpa using h
  · intro hpos
    simp only [processEarlyRepayment]
    have hpen : (0:ℚ) < s.summary.outstandingAmount * (2 / 100) := by positivity
    rw [if_pos (by linarith)]

/-- C8 counterexample: the final installment of a 2-month schedule keeps
the raw remaining principal 101000/201 as `principalAmount`, which is not
a 2-decimal value. -/
theorem c8_rounding_final_cex :
    ((calculateInstallments 1000 12 2 0).map JInstallment.principalAmount)[1]?
        = some (JNum.num (101000 / 201)) ∧
    (JNum.num (101000 / 201)).round2 ≠ JNum.num (101000 / 201) := by
  constructor
  · norm_num [calculateInstallments, calcAux, JNum.div, JNum.mul, JNum.sub,
      JNum.add, JNum.round2, round2Q_zero]
  · simp only [JNum.round2_num, ne_eq, JNum.num.injEq]
    unfold round2Q
    norm_num [Int.floor_eq_iff]

/-- C8 (amended): every monetary field of every generated installment is
rounded to 2 decimals, except the final installment's `principalAmount`,
which is stored as the raw remaining principal. -/
theorem c8_rounding_amended (p ra : ℚ) (n sd : ℕ) :
    ∀ inst ∈ calculateInstallments p ra n sd,
      inst.interestAmount.round2 = inst.interestAmount ∧
      inst.totalAmount.round2 = inst.totalAmount ∧
      inst.outstandingAmount.round2 = inst.outstandingAmount ∧
      inst.paidAmount.round2 = inst.paidAmount ∧
      (inst.installmentNumber ≠ n → inst.principalAmount.round2 = inst.principalAmount) := by
  intro inst hmem
  unfold calculateInstallments at hmem
  exact calcAux_mem_rounded _ _ n sd _ _ 1 inst hmem

/-- C8 witness: the non-final installment above has rounded fields,
including its principal portion. -/
theorem c8_rounding_witness :
    c8First ∈ calculateInstallments 1000 12 2 0 ∧
    c8First.interestAmount.round2 = c8First.interestAmount ∧
    (c8First.installmentNumber ≠ 2 →
      c8First.principalAmount.round2 = c8First.principalAmount) := by
  have hmem : c8First ∈ calculateInstallments 1000 12 2 0 := by
    norm_num [calculateInstallments, calcAux, JNum.div, JNum.mul, JNum.sub,
      JNum.add, JNum.round2, c8First, round2Q]
  have h := c8_rounding_amended 1000 12 2 0 c8First hmem
  exact ⟨hmem, h.1, h.2.2.2.2⟩

/-- C9 counterexample: the calculator does not validate its inputs: a zero
term yields an empty list without error, and a negative principal is
accepted and amortized. -/
theorem c9_no_validation_cex :
    calculateInstallments 100 12 0 17 = [] ∧
    (calculateInstallments (-100) 12 1 17).length = 1 := by
  constructor
  · norm_num [calculateInstallments, calcAux]
  · norm_num [calculateInstallments, calcAux, JNum.div, JNum.mul, JNum.sub,
      JNum.add, JNum.round2]

/-- C9 (amended): the calculator performs no validation and never fails;
for every input, also non-positive principals, negative rates and
`termMonths = 0`, it returns exactly `termMonths` installments. -/
theorem c9_no_validation_amended (p ra : ℚ) (n sd : ℕ) :
    (calculateInstallments p ra n sd).length = n := by
  unfold calculateInstallments
  exact calcAux_length _ _ n sd n _ 1 (by omega)

/-- C10: a non-positive payment against an active schedule succeeds, the
allocation loop breaks before modifying any installment, yet the schedule
is persisted with `lastPaymentDate = now` and the version incremented, and
the `payment_recorded` event reports `installmentsPaid = 0`. -/
theorem c10_nonpositive_payment_frame (s : Schedule) (amt : ℚ) (ref : String)
    (now : ℕ) (hactive : s.status = ScheduleStatus.active) (hamt : amt ≤ 0) :
    ∃ s2 ev, recordPayment s amt ref now = .ok (s2, ev) ∧
      s2.installments = s.installments ∧
      s2.lastPaymentDate = some now ∧
      s2.version = s.version + 1 ∧
      ev.installmentsPaid = 0 ∧
      ev.paymentAmount = amt := by
  rw [recordPayment, if_neg (by simp [hactive]), allocate_nonpos ref now s.installments hamt]
  exact ⟨_, _, rfl, rfl, rfl, rfl, rfl, rfl⟩

/-- C10 witness: a zero payment against the schedule above. -/
theorem c10_nonpositive_payment_witness :
    c10Sched.status = ScheduleStatus.active ∧ (0:ℚ) ≤ 0 ∧
    ∃ s2 ev, recordPayment c10Sched 0 "p" 9 = .ok (s2, ev) ∧
      s2.installments = c10Sched.installments ∧
      s2.lastPaymentDate = some 9 ∧
      s2.version = c10Sched.version + 1 ∧
      ev.installmentsPaid = 0 ∧
      ev.paymentAmount = 0 :=
  ⟨rfl, le_refl 0,
    c10_nonpositive_payment_frame c10Sched 0 "p" 9 rfl (le_refl 0)⟩

/-- C1 counterexample: a sufficient early repayment completes the schedule
while its only installment is still `pending`, so a completed schedule
need not have all installments `paid`. -/
theorem c1_completion_cex :
    processEarlyRepayment c1Sched 102 5 = .ok c1After ∧
    c1After.status = ScheduleStatus.completed ∧
    c1After.installments.map Installment.status = [InstStatus.pending] := by
  refine ⟨?_, rfl, rfl⟩
  norm_num [processEarlyRepayment, c1Sched, c1After]

/-- C1 (amended): via `recordPayment` the schedule is completed exactly
when every installment of the updated list is `paid` (given the stored
installment count matches the list), but `processEarlyRepayment` sets
`status = completed` while leaving the installment list untouched. -/
theorem c1_completion_amended :
    (∀ (s : Schedule) (amt : ℚ) (ref : String) (now : ℕ)
        (s2 : Schedule) (ev : PaymentEvent),
      s.summary.numberOfInstallments = s.installments.length →
      recordPayment s amt ref now = .ok (s2, ev) →
      (s2.status = ScheduleStatus.completed ↔
        ∀ i ∈ s2.installments, i.status = InstStatus.paid)) ∧
    (∀ (s : Schedule) (amt : ℚ) (now : ℕ) (s2 : Schedule),
      processEarlyRepayment s amt now = .ok s2 →
      s2.status = ScheduleStatus.completed ∧ s2.installments = s.installments) := by
  constructor
  · intro s amt ref now s2 ev hnum hok
    rw [recordPayment] at hok
    by_cases hact : s.status ≠ ScheduleStatus.active
    · rw [if_pos hact] at hok
      exact Except.noConfusion hok
    · rw [if_neg hact] at hok
      simp only [Except.ok.injEq, Prod.mk.injEq] at hok
      obtain ⟨hs2, hev⟩ := hok
      subst hs2
      have hlen : (allocate ref now amt s.installments).installments.length
          = s.installments.length := allocate_length ref now s.installments amt
      by_cases hc : (recalculateSummary now
            (allocate ref now amt s.installments).installments).completedInstallments
          = s.summary.numberOfInstallments
      · simp only [if_pos hc]
        constructor
        · intro _ i hi
          have hcp : (allocate ref now amt s.installments).installments.countP
                (fun i => decide (i.status = InstStatus.paid))
              = (allocate ref now amt s.installments).installments.length := by
            simp only [recalculateSummary] at hc
            rw [hc, hnum, ← hlen]
          have hall := List.countP_eq_length.mp hcp i hi
          simpa using hall
        · intro _
          trivial
      · simp only [if_neg hc]
        constructor
        · intro h
          first
          | exact h.elim
          | exact absurd h (by decide)
        · intro hall
          exfalso
          apply hc
          simp only [recalculateSummary]
          rw [List.countP_eq_length.mpr (fun i hi => by simpa using hall i hi), hlen, hnum]
  · intro s amt now s2 hok
    simp only [processEarlyRepayment] at hok
    by_cases h : amt < s.summary.outstandingAmount + s.summary.outstandingAmount * (2 / 100)
    · rw [if_pos h] at hok
      exact Except.noConfusion hok
    · rw [if_neg h] at hok
      simp only [Except.ok.injEq] at hok
      subst hok
      exact ⟨rfl, rfl⟩

/-- C3: allocation is an oldest-first waterfall. The list keeps its
length; an installment already `paid` is never modified; a modified
installment is either settled in full (`paidAmount = totalAmount`,
`outstandingAmount = 0`, `status = paid`, stamped with date and reference)
or partially paid by some positive amount below its outstanding balance;
nothing after a `partially_paid` installment is modified; and when a later
index was modified, every earlier non-paid installment has been brought to
`paid`. -/
theorem c3_oldest_first_allocation (ref : String) (now : ℕ) (r : ℚ)
    (l : List Installment) :
    ((allocate ref now r l).installments.length = l.length) ∧
    (∀ (k : ℕ) (a b : Installment),
      l[k]? = some a → (allocate ref now r l).installments[k]? = some b →
      (a.status = InstStatus.paid → b = a) ∧
      (b ≠ a →
        b = { a with
              paidAmount := a.totalAmount
              outstandingAmount := 0
              status := InstStatus.paid
              paidDate := some now
              paymentReference := some ref } ∨
        ∃ x, 0 < x ∧ x < a.outstandingAmount ∧
          b = { a with
                paidAmount := a.paidAmount + x
                outstandingAmount := a.outstandingAmount - x
                status := InstStatus.partiallyPaid })) ∧
    (∀ (k : ℕ) (b : Installment),
      (allocate ref now r l).installments[k]? = some b →
      b.status = InstStatus.partiallyPaid →
      ∀ j, k < j → (allocate ref now r l).installments[j]? = l[j]?) ∧
    (∀ (k j : ℕ) (a b : Installment), k < j →
      (allocate ref now r l).installments[j]? ≠ l[j]? →
      l[k]? = some a → (allocate ref now r l).installments[k]? = some b →
      a.status ≠ InstStatus.paid → b.status = InstStatus.paid) :=
  ⟨allocate_length ref now l r,
    fun k a b => allocate_pointwise ref now l r k a b,
    allocate_partial_stop ref now l r,
    fun k j a b => allocate_earlier_settled ref now l r k j a b⟩

/-- C3 witness: a 20 payment against [50 pending, 100 pending] partially
pays installment 1 and leaves installment 2 untouched. -/
theorem c3_oldest_first_witness :
    (allocate "p" 7 20 c3L).installments[0]?
        = some ⟨1, 1, 50, 0, 50, 20, 30, InstStatus.partiallyPaid, none, none⟩ ∧
    (allocate "p" 7 20 c3L).installments[1]? = c3L[1]? := by
  have h0 : (allocate "p" 7 20 c3L).installments[0]?
      = some ⟨1, 1, 50, 0, 50, 20, 30, InstStatus.partiallyPaid, none, none⟩ := by
    norm_num [allocate, c3L]
    decide
  exact ⟨h0, (c3_oldest_first_allocation "p" 7 20 c3L).2.2.1 0 _ h0 rfl 1 (by omega)⟩

/-- C1 witness: paying the full outstanding amount through `recordPayment`
completes the concrete schedule, in accordance with the completion
equivalence. -/
theorem c1_completion_witness :
    c1Sched.summary.numberOfInstallments = c1Sched.installments.length ∧
    ∃ s2 ev, recordPayment c1Sched 100 "p" 7 = .ok (s2, ev) ∧
      (s2.status = ScheduleStatus.completed ↔
        ∀ i ∈ s2.installments, i.status = InstStatus.paid) :=
  ⟨rfl, _, _, rfl, c1_completion_amended.1 c1Sched 100 "p" 7 _ _ rfl rfl⟩

end LoanRepayment
